import Mathlib

/-!
# Verification of the zsh `tcp.c` TCP session registry

Shallow embedding of `Src/Modules/tcp.c` (the `ztcp` builtin's session
registry and connection operations).  Session records live in an explicit
heap keyed by allocation ids, so that `free` is observable: reading a freed
or null pointer is modelled as a `CErr.memFault` result, mirroring the
undefined behaviour the C program would exhibit there.

The OS is modelled by small oracles: `zcalloc` success is a boolean
parameter, `socket`'s return value is a parameter, `close` acts on a set of
open descriptors, and each `connect` attempt's outcome is supplied by a
per-candidate behaviour record.
-/

set_option maxRecDepth 4000

/-- A C-level memory fault: dereferencing a null pointer or memory that has
already been freed. -/
inductive CErr where
  | memFault
deriving DecidableEq, Repr

/-- Modelled from the spec: the `sockaddr` union `sess->peer` from
`struct tcp_session` in `tcp.h` (not part of the given sources).  The IPv4
branch of `tcp_connect` fills the family tag, the raw address bytes
(`memcpy` of `h_length` bytes into `sin_addr`) and the port. -/
structure PeerAddr where
  family : Nat
  addr : List Nat
  port : Nat
deriving DecidableEq, Repr

/-- The zero-initialised peer produced by `zcalloc` in `zts_alloc`. -/
def zeroPeer : PeerAddr := { family := 0, addr := [], port := 0 }

/-- Modelled from the spec: `struct tcp_session` from `tcp.h` (not part of
the given sources); fields are exactly those `tcp.c` uses: `fd`, `peer`,
`flags` and the intrusive `next` link (here an optional heap id). -/
structure SessNode where
  fd : Int
  peer : PeerAddr
  flags : Nat
  next : Option Nat
deriving DecidableEq, Repr

/-- The allocation heap: association list from session id to record.
Freeing removes the binding, so later reads of a freed id fail. -/
abbrev Heap := List (Nat × SessNode)

/-- Read the record at id `i` (first binding wins). -/
def Heap.lookupId : Heap → Nat → Option SessNode
  | [], _ => none
  | (j, nd) :: t, i => if j = i then some nd else Heap.lookupId t i

/-- Overwrite every binding of id `i` with `nd` (a C store through a
pointer; a no-op if `i` is not allocated). -/
def Heap.updateId : Heap → Nat → SessNode → Heap
  | [], _, _ => []
  | (j, nd0) :: t, i, nd =>
      (j, if j = i then nd else nd0) :: Heap.updateId t i nd

/-- `free(i)`: drop the binding of id `i`. -/
def Heap.freeId : Heap → Nat → Heap
  | [], _ => []
  | (j, nd0) :: t, i =>
      if j = i then Heap.freeId t i else (j, nd0) :: Heap.freeId t i

/-- The registry's process-wide state: the heap plus the globals
`ztcp_head` and `ztcp_tail`, and a fresh-id counter standing in for the
addresses `zcalloc` hands out. -/
structure TcpState where
  heap : Heap
  head : Option Nat
  tail : Option Nat
  fresh : Nat
deriving DecidableEq, Repr

/-- The registry at module load: `ztcp_head = ztcp_tail = NULL`. -/
def emptyState : TcpState := { heap := [], head := none, tail := none, fresh := 0 }

/-- Dereference a session pointer: fault on null and on freed ids. -/
def deref (h : Heap) : Option Nat → Except CErr (Nat × SessNode)
  | none => .error .memFault
  | some i =>
      match h.lookupId i with
      | none => .error .memFault
      | some nd => .ok (i, nd)

/-- `zts_head`: return the global head pointer. -/
def zts_head (st : TcpState) : Option Nat := st.head

/-- `zts_next`: `cur ? cur->next : NULL`; dereferences `cur` when non-null. -/
def zts_next (st : TcpState) (cur : Option Nat) : Except CErr (Option Nat) :=
  match cur with
  | none => .ok none
  | some i => (deref st.heap (some i)).map (fun p => p.2.next)

/-- `zts_alloc`: `zcalloc` a zero-filled record (`zcallocOk = false` models
allocation exhaustion, where `zcalloc` returns `NULL` and the function
returns `NULL`), set `fd = -1`, `next = NULL`, `flags`; if the list is
empty set both head and tail to it, otherwise store it into
`ztcp_tail->next`.  Note the source never advances `ztcp_tail` in the
non-empty branch. -/
def zts_alloc (zcallocOk : Bool) (ztflags : Nat) (st : TcpState) :
    Except CErr (Option Nat × TcpState) :=
  if !zcallocOk then .ok (none, st)
  else
    let sid := st.fresh
    let nd : SessNode := { fd := -1, peer := zeroPeer, flags := ztflags, next := none }
    let h : Heap := (sid, nd) :: st.heap
    match st.head with
    | none =>
        .ok (some sid, { heap := h, head := some sid, tail := some sid, fresh := sid + 1 })
    | some _ => do
        let (t, tnd) ← deref h st.tail
        .ok (some sid,
          { heap := h.updateId t { tnd with next := some sid },
            head := st.head, tail := st.tail, fresh := sid + 1 })

/-- `tcp_socket`: allocate a session, then store the OS `socket()` result
(`socketRes`; `-1` models creation failure) into its `fd`.  Returns the
session even when socket creation failed. -/
def tcp_socket (zcallocOk : Bool) (socketRes : Int) (ztflags : Nat) (st : TcpState) :
    Except CErr (Option Nat × TcpState) := do
  let (osess, st1) ← zts_alloc zcallocOk ztflags st
  match osess with
  | none => .ok (none, st1)
  | some sid => do
      let (_, nd) ← deref st1.heap (some sid)
      .ok (some sid, { st1 with heap := st1.heap.updateId sid { nd with fd := socketRes } })

/-- The scan loop of `zts_delete`:
`while((tsess->next != sess) && (tsess->next)) tsess = zts_next(tsess);`
returning the final `tsess`.  Fuel exhaustion (a cyclic list) is reported
as a fault. -/
def zts_scan (h : Heap) (sess : Nat) : Nat → Nat → Except CErr Nat
  | 0, _ => .error .memFault
  | fuel + 1, t =>
      match h.lookupId t with
      | none => .error .memFault
      | some tnd =>
          match tnd.next with
          | none => .ok t
          | some n => if n = sess then .ok t else zts_scan h sess fuel n

/-- `zts_delete`: if `sess` is the head, rewire the head to `sess->next`
and `free(sess)`.  Otherwise scan for the node before `sess`; if the scan
falls off the end return `1`; else execute the source's
`tsess->next = tsess->next->next; free(tsess->next);` — which frees the
record that is `tsess->next` *after* the rewiring, i.e. the target's
successor (and `free(NULL)` is a no-op when the target was last). -/
def zts_delete (sess : Nat) (st : TcpState) : Except CErr (Int × TcpState) :=
  match st.head with
  | none =>
      -- tsess = NULL; the comparison fails and the scan dereferences NULL.
      .error .memFault
  | some hid =>
      if hid = sess then do
        let (_, snd) ← deref st.heap (some sess)
        .ok (0, { st with heap := st.heap.freeId sess, head := snd.next })
      else do
        let t ← zts_scan st.heap sess st.heap.length hid
        let (_, tnd) ← deref st.heap (some t)
        match tnd.next with
        | none => .ok (1, st)
        | some n => do
            let (_, snd) ← deref st.heap (some n)
            let h1 := st.heap.updateId t { tnd with next := snd.next }
            match snd.next with
            | none => .ok (0, { st with heap := h1 })
            | some m => .ok (0, { st with heap := h1.freeId m })

/-- The `do { ... } while(tsess != NULL)` loop of `zts_byfd`: the body
dereferences `tsess` before any null test, so an empty registry faults. -/
def zts_byfd_loop (h : Heap) (fd : Int) : Nat → Option Nat → Except CErr (Option Nat)
  | 0, _ => .error .memFault
  | fuel + 1, cur => do
      let (i, nd) ← deref h cur
      if nd.fd = fd then .ok (some i)
      else
        match nd.next with
        | none => .ok none
        | some n => zts_byfd_loop h fd fuel (some n)

/-- `zts_byfd`: linear scan from the head for the first session whose `fd`
matches. -/
def zts_byfd (fd : Int) (st : TcpState) : Except CErr (Option Nat) :=
  zts_byfd_loop st.heap fd (st.heap.length + 1) st.head

/-- The OS's table of open descriptors, for modelling `close(2)`. -/
structure OS where
  openFds : List Int
deriving DecidableEq, Repr

/-- `close(fd)`: succeeds (returning 0) and removes the descriptor if it is
open; fails (returning -1, e.g. `EBADF`) otherwise. -/
def osClose (os : OS) (fd : Int) : Int × OS :=
  if fd ∈ os.openFds then (0, { openFds := os.openFds.filter (fun x => x ≠ fd) })
  else (-1, os)

/-- `tcp_close`: if `sess->fd != -1`, issue `close` and return `0` on
success or `-1` (after a warning) on OS failure; if the descriptor is
already `-1`, return `-1`.  The source writes neither the session record
nor the registry globals, which the embedding mirrors by returning only
the status and the OS state. -/
def tcp_close (st : TcpState) (os : OS) (sess : Nat) : Except CErr (Int × OS) := do
  let (_, nd) ← deref st.heap (some sess)
  if nd.fd ≠ -1 then
    let (err, os') := osClose os nd.fd
    if err ≠ 0 then .ok (-1, os') else .ok (0, os')
  else
    .ok (-1, os)

/-- The loop body of `tcp_cleanup`:
`for(sess = zts_head(); sess != NULL; sess = zts_next(prev)) { prev = sess;
tcp_close(sess); zts_delete(sess); }`.  The update expression reads
`prev->next` *after* `zts_delete` has freed `prev`, which the heap model
reports as a fault. -/
def tcp_cleanup_loop (h f : Nat) : Nat → Option Nat → TcpState → OS →
    Except CErr (TcpState × OS) :=
  fun fuel cur st os =>
    match fuel, cur with
    | _, none => .ok (st, os)
    | 0, some _ => .error .memFault
    | fuel + 1, some sid => do
        let prevp := sid
        let (_, os') ← tcp_close st os sid
        let (_, st') ← zts_delete sid st
        let nxt ← zts_next st' (some prevp)
        tcp_cleanup_loop h f fuel nxt st' os'

/-- `tcp_cleanup`: drain the registry from the head. -/
def tcp_cleanup (st : TcpState) (os : OS) : Except CErr (TcpState × OS) :=
  tcp_cleanup_loop 0 0 (st.heap.length + 1) st.head st os

/-- Fuel-indexed forward traversal from a session pointer, pairing each
visited id with its record; `none` when it dereferences a dead pointer or
runs out of fuel (a cycle). -/
def chainPairs (h : Heap) : Nat → Option Nat → Option (List (Nat × SessNode))
  | _, none => some []
  | 0, some _ => none
  | fuel + 1, some i =>
      match h.lookupId i with
      | none => none
      | some nd => (chainPairs h fuel nd.next).map (fun l => (i, nd) :: l)

/-- The registry's forward traversal (`zts_head` / `zts_next`), with fuel
one past the number of allocated records. -/
def chain (st : TcpState) : Option (List (Nat × SessNode)) :=
  chainPairs st.heap (st.heap.length + 1) st.head

/-- The ids visited by the forward traversal. -/
def chainIds (st : TcpState) : Option (List Nat) :=
  (chain st).map (fun l => l.map (fun p => p.1))

/-- Test scaffolding: run one successful `zts_alloc` with flags 0 and keep
the resulting state. -/
def allocStep (st : TcpState) : TcpState :=
  match zts_alloc true 0 st with
  | .ok (_, st') => st'
  | .error _ => st

/-- One session (id 0) allocated. -/
def stA : TcpState := allocStep emptyState

/-- Two sessions allocated: the list is `0 → 1`, `ztcp_tail` still id 0. -/
def stAB : TcpState := allocStep stA

/-- Three sessions allocated: because `zts_alloc` never advances
`ztcp_tail`, the third allocation overwrites `0.next`, orphaning id 1. -/
def stABC : TcpState := allocStep stAB

/-- C1.  The spec claims forward traversal visits each live session exactly
once in allocation order.  After three `Allocate` calls the traversal
terminates but visits only ids 0 and 2: session 1 is still allocated (never
deleted) yet unreachable, because `zts_alloc` fails to advance `ztcp_tail`,
so the third allocation overwrites the first node's link to session 1. -/
theorem c1_traversal_misses_live_session :
    zts_alloc true 0 stAB = .ok (some 2, stABC) ∧
    stABC.heap.lookupId 1 = some { fd := -1, peer := zeroPeer, flags := 0, next := none } ∧
    chainIds stABC = some [0, 2] := by
  refine ⟨rfl, rfl, rfl⟩

/-- C2.  The spec claims the tail always references the last node reachable
from the head and that the tail's link is always null.  Already after two
`Allocate` calls, `ztcp_tail` is still session 0 while the last reachable
node is session 1, and the tail's `next` link is `some 1`, not null. -/
theorem c2_tail_not_last_after_two_allocs :
    zts_alloc true 0 stA = .ok (some 1, stAB) ∧
    stAB.tail = some 0 ∧
    chainIds stAB = some [0, 1] ∧
    (stAB.heap.lookupId 0).map (fun nd => nd.next) = some (some 1) := by
  refine ⟨rfl, rfl, rfl, rfl⟩

/-- The slice of `struct hostent` that `tcp_connect` and the `bin_ztcp`
connect loop consume: address family, address length, and the raw candidate
address byte strings. -/
structure HostEnt where
  h_addrtype : Nat
  h_length : Nat
  h_addr_list : List (List Nat)
deriving DecidableEq, Repr

/-- `tcp_connect` (the non-`SUPPORT_IPV6` branch of the source): `memcpy`
`h_length` bytes of the candidate address into `sess->peer.in.sin_addr`,
store the port and the family tag, then issue the blocking `connect` on
`sess->fd`, whose OS result is the oracle `connRes`.  The peer fields are
written before `connect` is called, regardless of its outcome. -/
def tcp_connect (st : TcpState) (connRes : Int) (sess : Nat) (addrp : List Nat)
    (zhost : HostEnt) (d_port : Nat) : Except CErr (Int × TcpState) := do
  let (_, nd) ← deref st.heap (some sess)
  let peer : PeerAddr :=
    { family := zhost.h_addrtype, addr := addrp.take zhost.h_length, port := d_port }
  .ok (connRes, { st with heap := st.heap.updateId sess { nd with peer := peer } })

/-! ## Heap lemmas -/


theorem Heap.lookupId_updateId_self (h : Heap) (i : Nat) (nd nd0 : SessNode)
    (hl : h.lookupId i = some nd0) : (h.updateId i nd).lookupId i = some nd := by
  induction h with
  | nil => simp [Heap.lookupId] at hl
  | cons p t ih =>
      obtain ⟨j, pnd⟩ := p
      by_cases hj : j = i
      · subst hj
        simp [Heap.updateId, Heap.lookupId]
      · simp only [Heap.lookupId, if_neg hj] at hl
        simp only [Heap.updateId, Heap.lookupId, if_neg hj]
        exact ih hl

theorem Heap.lookupId_updateId_ne (h : Heap) {i j : Nat} (nd : SessNode)
    (hne : j ≠ i) : (h.updateId i nd).lookupId j = h.lookupId j := by
  induction h with
  | nil => rfl
  | cons p t ih =>
      obtain ⟨k, pnd⟩ := p
      simp only [Heap.updateId, Heap.lookupId]
      by_cases hk : k = j
      · have hki : k ≠ i := by rw [hk]; exact hne
        rw [if_pos hk, if_pos hk, if_neg hki]
      · rw [if_neg hk, if_neg hk]
        exact ih

theorem Heap.lookupId_freeId_self (h : Heap) (i : Nat) :
    (h.freeId i).lookupId i = none := by
  induction h with
  | nil => rfl
  | cons p t ih =>
      obtain ⟨k, pnd⟩ := p
      by_cases hk : k = i
      · simp [Heap.freeId, if_pos hk, ih]
      · simp [Heap.freeId, if_neg hk, Heap.lookupId, hk, ih]

theorem Heap.lookupId_freeId_ne (h : Heap) {i j : Nat} (hne : j ≠ i) :
    (h.freeId i).lookupId j = h.lookupId j := by
  induction h with
  | nil => rfl
  | cons p t ih =>
      obtain ⟨k, pnd⟩ := p
      by_cases hk : k = i
      · have hkj : k ≠ j := by rw [hk]; exact fun hh => hne hh.symm
        simp [Heap.freeId, if_pos hk, Heap.lookupId, if_neg hkj, ih]
      · simp [Heap.freeId, if_neg hk, Heap.lookupId, ih]

/-- Inverting a successful pointer dereference. -/
theorem deref_ok {h : Heap} {c : Option Nat} {i : Nat} {nd : SessNode}
    (hd : deref h c = .ok (i, nd)) : c = some i ∧ h.lookupId i = some nd := by
  cases c with
  | none => simp [deref] at hd
  | some j =>
      cases hlk : h.lookupId j with
      | none => simp [deref, hlk] at hd
      | some nd0 =>
          simp only [deref, hlk, Except.ok.injEq, Prod.mk.injEq] at hd
          obtain ⟨h1, h2⟩ := hd
          subst h1
          subst h2
          exact ⟨rfl, hlk⟩

/-! ## C3: `zts_delete` frees the wrong record -/

/-- A well-formed three-node registry `0 → 1 → 2` (as the registry would
look if the tail pointer were maintained); the claim quantifies over every
registry containing the target. -/
def st3chain : TcpState :=
  { heap := [(0, { fd := 3, peer := zeroPeer, flags := 0, next := some 1 }),
             (1, { fd := 4, peer := zeroPeer, flags := 0, next := some 2 }),
             (2, { fd := 5, peer := zeroPeer, flags := 0, next := none })],
    head := some 0, tail := some 2, fresh := 3 }

/-- The state `zts_delete 1` actually produces from `st3chain`: session 1
is unlinked but still allocated (leaked), while its successor, session 2,
has been freed yet is still linked from session 0. -/
def st3del : TcpState :=
  { heap := [(0, { fd := 3, peer := zeroPeer, flags := 0, next := some 2 }),
             (1, { fd := 4, peer := zeroPeer, flags := 0, next := some 2 })],
    head := some 0, tail := some 2, fresh := 3 }

/-- C3.  The spec claims `Delete(target)` frees the target record itself
and no other record.  Deleting the middle session 1 of `0 → 1 → 2` reports
success and rewires `0.next` past it, but the source's
`tsess->next = tsess->next->next; free(tsess->next);` frees session 2 (the
target's successor): session 1 is still allocated afterwards, session 2 is
gone from the heap, and session 0 still links to the freed id 2, so the
subsequent traversal faults. -/
theorem c3_delete_frees_successor :
    zts_delete 1 st3chain = .ok (0, st3del) ∧
    st3del.heap.lookupId 1 = some { fd := 4, peer := zeroPeer, flags := 0, next := some 2 } ∧
    st3del.heap.lookupId 2 = none ∧
    (st3del.heap.lookupId 0).map (fun nd => nd.next) = some (some 2) ∧
    chain st3del = none := by
  refine ⟨rfl, rfl, rfl, rfl, rfl⟩

/-! ## C4: `tcp_cleanup` reads a freed node -/

/-- C4.  The spec claims `DrainAll` captures each node's successor before
deleting the node, empties the registry, and is a no-op when already empty.
The no-op part holds, but on any non-empty registry the source's loop
update `sess = zts_next(prev)` runs after `zts_delete(prev)` has freed
`prev`, so already with a single allocated session the drain dereferences
freed memory instead of completing. -/
theorem c4_cleanup_use_after_free :
    tcp_cleanup emptyState { openFds := [] } = .ok (emptyState, { openFds := [] }) ∧
    tcp_cleanup stA { openFds := [] } = .error .memFault := by
  refine ⟨rfl, rfl⟩

/-! ## C5: the peer address is written before `connect` -/

/-- `AF_INET`, as the resolver reports it for the IPv4 path. -/
def AF_INET : Nat := 2

/-- A resolved host record for the numeric address `127.0.0.1`. -/
def host4 : HostEnt :=
  { h_addrtype := AF_INET, h_length := 4, h_addr_list := [[127, 0, 0, 1]] }

/-- A one-session registry right after `tcp_socket` returned descriptor 5. -/
def stSock : TcpState :=
  { heap := [(0, { fd := 5, peer := zeroPeer, flags := 0, next := none })],
    head := some 0, tail := some 0, fresh := 1 }

/-- `stSock` after a *failed* `connect` attempt to `127.0.0.1:23`: the peer
fields are populated even though the connect failed. -/
def stConn : TcpState :=
  { heap := [(0, { fd := 5,
                   peer := { family := AF_INET, addr := [127, 0, 0, 1], port := 23 },
                   flags := 0, next := none })],
    head := some 0, tail := some 0, fresh := 1 }

/-- C5 counterexample.  The claim says a session whose connect attempts all
failed has a zero-valued `peerAddress`.  Concretely: session 0 is created
by `tcp_socket`, a single `tcp_connect` to `127.0.0.1:23` fails (OS result
`-1`), yet the session's peer now holds the resolved endpoint, not the zero
value, because `tcp_connect` stores the sockaddr before calling `connect`. -/
theorem c5_cx_failed_connect_sets_peer :
    tcp_socket true 5 0 emptyState = .ok (some 0, stSock) ∧
    tcp_connect stSock (-1) 0 [127, 0, 0, 1] host4 23 = .ok (-1, stConn) ∧
    (stConn.heap.lookupId 0).map (fun nd => nd.peer) =
      some { family := AF_INET, addr := [127, 0, 0, 1], port := 23 } ∧
    (stConn.heap.lookupId 0).map (fun nd => nd.peer) ≠ some zeroPeer := by
  refine ⟨rfl, rfl, rfl, by decide⟩

/-- A successful `zts_alloc` hands out the fresh id and a record with
descriptor `-1`, zero peer and the requested flags (only its link can have
been touched, when the stale tail happens to coincide with the new id). -/
theorem zts_alloc_fresh_peer (flags : Nat) (st : TcpState) (sid : Nat) (st' : TcpState)
    (h : zts_alloc true flags st = .ok (some sid, st')) :
    sid = st.fresh ∧ ∃ nxt, st'.heap.lookupId sid =
      some { fd := -1, peer := zeroPeer, flags := flags, next := nxt } := by
  rw [zts_alloc] at h
  simp only [Bool.not_true, Bool.false_eq_true, if_false, reduceIte, bind, Except.bind] at h
  split at h
  · simp only [Except.ok.injEq, Prod.mk.injEq, Option.some.injEq] at h
    obtain ⟨hsid, hst⟩ := h
    subst hsid
    subst hst
    exact ⟨rfl, none, by simp [Heap.lookupId]⟩
  · split at h
    · cases h
    · rename_i hd p hder
      obtain ⟨t, tnd⟩ := p
      simp only [Except.ok.injEq, Prod.mk.injEq, Option.some.injEq] at h
      obtain ⟨hsid, hst⟩ := h
      subst hsid
      subst hst
      obtain ⟨-, hlk⟩ := deref_ok hder
      by_cases ht : t = st.fresh
      · subst ht
        have h0 : Heap.lookupId ((st.fresh, (⟨-1, zeroPeer, flags, none⟩ : SessNode)) :: st.heap)
            st.fresh = some ⟨-1, zeroPeer, flags, none⟩ := by
          simp [Heap.lookupId]
        have htnd : tnd = ⟨-1, zeroPeer, flags, none⟩ := by
          rw [h0] at hlk
          exact (Option.some.inj hlk).symm
        subst htnd
        exact ⟨rfl, some st.fresh, Heap.lookupId_updateId_self _ _ _ _ h0⟩
      · refine ⟨rfl, none, ?_⟩
        rw [Heap.lookupId_updateId_ne _ _ (fun hh : st.fresh = t => ht hh.symm)]
        simp [Heap.lookupId]

/-- C5 as amended.  `peerAddress` is zero-valued for freshly allocated
sessions and stays zero through socket creation (also when socket creation
fails, i.e. for any `socketRes`); and `tcp_connect` stores the attempted
endpoint into `peerAddress` unconditionally, before the OS `connect`
verdict, so after any connect attempt — successful or not — the peer holds
the last attempted endpoint. -/
theorem c5_amended_peer_lifecycle :
    (∀ (st : TcpState) (zOk : Bool) (sres : Int) (flags sid : Nat) (st' : TcpState),
        tcp_socket zOk sres flags st = .ok (some sid, st') →
        (st'.heap.lookupId sid).map (fun nd => nd.peer) = some zeroPeer) ∧
    (∀ (st : TcpState) (cr : Int) (sid : Nat) (addrp : List Nat) (zh : HostEnt)
        (p : Nat) (e : Int) (st' : TcpState),
        tcp_connect st cr sid addrp zh p = .ok (e, st') →
        (st'.heap.lookupId sid).map (fun nd => nd.peer) =
          some { family := zh.h_addrtype, addr := addrp.take zh.h_length, port := p }) := by
  constructor
  · intro st zOk sres flags sid st' hrun
    cases zOk with
    | false => simp [tcp_socket, zts_alloc, bind, Except.bind] at hrun
    | true =>
        rw [tcp_socket] at hrun
        simp only [bind, Except.bind] at hrun
        split at hrun
        · cases hrun
        · rename_i pr halloc
          obtain ⟨osess, st1⟩ := pr
          cases osess with
          | none => simp at hrun
          | some sid0 =>
              simp only at hrun
              split at hrun
              · cases hrun
              · rename_i hd q hder
                obtain ⟨i, nd⟩ := q
                simp only [Except.ok.injEq, Prod.mk.injEq, Option.some.injEq] at hrun
                obtain ⟨hsid, hst'⟩ := hrun
                subst hst'
                rw [← hsid]
                obtain ⟨hc, hlk⟩ := deref_ok hder
                injection hc with hc
                subst hc
                obtain ⟨-, nxt, hnode⟩ := zts_alloc_fresh_peer flags st sid0 st1 halloc
                rw [hnode] at hlk
                injection hlk with hnd
                subst hnd
                dsimp only
                rw [Heap.lookupId_updateId_self _ _ _ _ hnode]
                rfl
  · intro st cr sid addrp zh p e st' hrun
    rw [tcp_connect] at hrun
    simp only [bind, Except.bind] at hrun
    split at hrun
    · cases hrun
    · rename_i hd q hder
      obtain ⟨i, nd⟩ := q
      simp only [Except.ok.injEq, Prod.mk.injEq] at hrun
      obtain ⟨he, hst'⟩ := hrun
      subst hst'
      obtain ⟨hc, hlk⟩ := deref_ok hder
      injection hc with hc
      subst hc
      dsimp only
      rw [Heap.lookupId_updateId_self _ _ _ _ hlk]
      rfl

/-- C5 amended witness: the general lifecycle theorem applied to the
concrete run of `c5_cx_failed_connect_sets_peer`. -/
theorem c5_amended_peer_lifecycle_witness :
    (stSock.heap.lookupId 0).map (fun nd => nd.peer) = some zeroPeer ∧
    (stConn.heap.lookupId 0).map (fun nd => nd.peer) =
      some { family := AF_INET, addr := [127, 0, 0, 1], port := 23 } :=
  ⟨c5_amended_peer_lifecycle.1 emptyState true 5 0 0 stSock rfl,
   c5_amended_peer_lifecycle.2 stSock (-1) 0 [127, 0, 0, 1] host4 23 (-1) stConn rfl⟩

/-! ## C7: `tcp_close` never resets the descriptor -/

/-- C7.  `tcp_close` returns `-1` whenever the descriptor is already `-1`;
it never writes the session record or the registry (the source performs no
such store, which the embedding mirrors by returning only the status and
the OS state — both calls below therefore run on the same registry state).
Consequently, closing a session with an open descriptor succeeds once and
removes the descriptor from the OS table, and an immediate second
`tcp_close` of the same session re-issues `close` on the now-stale
descriptor and returns a reported failure, because the descriptor was not
reset to `-1`. -/
theorem c7_close_no_reset_double_close :
    ∀ (st : TcpState) (os : OS) (sid : Nat) (nd : SessNode),
      st.heap.lookupId sid = some nd →
      (nd.fd = -1 → tcp_close st os sid = .ok (-1, os)) ∧
      (nd.fd ≠ -1 → nd.fd ∈ os.openFds →
        tcp_close st os sid =
          .ok (0, { openFds := os.openFds.filter (fun x => x ≠ nd.fd) }) ∧
        nd.fd ∉ (os.openFds.filter (fun x => x ≠ nd.fd)) ∧
        tcp_close st { openFds := os.openFds.filter (fun x => x ≠ nd.fd) } sid =
          .ok (-1, { openFds := os.openFds.filter (fun x => x ≠ nd.fd) })) := by
  intro st os sid nd hlk
  constructor
  · intro hfd
    simp [tcp_close, deref, hlk, hfd, bind, Except.bind]
  · intro hfd hopen
    have hmem : nd.fd ∉ (os.openFds.filter (fun x => x ≠ nd.fd)) := by
      simp [List.mem_filter]
    refine ⟨?_, hmem, ?_⟩
    · simp [tcp_close, deref, hlk, hfd, osClose, hopen, bind, Except.bind]
    · simp [tcp_close, deref, hlk, hfd, osClose, hmem, bind, Except.bind]

/-- C7 witness: session 0 of `stSock` has descriptor 5; with 5 open in the
OS, the first close succeeds and the second reports failure. -/
theorem c7_close_witness :
    tcp_close stSock { openFds := [5] } 0 = .ok (0, { openFds := [] }) ∧
    tcp_close stSock { openFds := [] } 0 = .ok (-1, { openFds := [] }) := by
  have h := (c7_close_no_reset_double_close stSock { openFds := [5] } 0
      { fd := 5, peer := zeroPeer, flags := 0, next := none } rfl).2
      (by decide) (by simp)
  exact ⟨h.1, h.2.2⟩

/-! ## C6: the open-connection command dereferences a null session -/

/-- The session-acquisition phase of the `bin_ztcp` open path, after host
resolution succeeded: `sess = tcp_socket(...)`, then (under
`#ifdef SO_OOBINLINE`, defined on all mainstream platforms)
`setsockopt(sess->fd, ...)` — which dereferences `sess` — and only then the
`if(!sess)` allocation-failure check (warn, exit status 1) and the
`sess->fd < 0` socket-failure check (warn, delete the session, exit
status 1).  Result: `(exit status, session, registry)`, status `0` meaning
the command proceeds to the connect loop. -/
def bin_ztcp_open_sock (zcallocOk : Bool) (socketRes : Int) (st : TcpState) :
    Except CErr (Int × Option Nat × TcpState) := do
  let (osess, st1) ← tcp_socket zcallocOk socketRes 0 st
  let _ ← deref st1.heap osess
  match osess with
  | none => .ok (1, none, st1)
  | some sid => do
      let (_, nd) ← deref st1.heap (some sid)
      if nd.fd < 0 then do
        let (_, st2) ← zts_delete sid st1
        .ok (1, none, st2)
      else
        .ok (0, some sid, st1)

/-- C6.  The claim says a failed session allocation is reported and the
command aborts with exit status 1 before any further use of the session.
In the source, the `setsockopt(sess->fd, SOL_SOCKET, SO_OOBINLINE, ...)`
call sits *before* the `if(!sess)` check, so when `zts_alloc`'s `zcalloc`
returns `NULL` the command dereferences the null session pointer and never
reaches the report-and-return-1 branch. -/
theorem c6_alloc_failure_faults :
    ∀ (sres : Int) (st : TcpState),
      bin_ztcp_open_sock false sres st = .error .memFault := by
  intro sres st
  simp [bin_ztcp_open_sock, tcp_socket, zts_alloc, deref, bind, Except.bind]

/-! ## C10: `zts_byfd` returns the first match in registry order -/

theorem zts_byfd_loop_finds (h : Heap) (fd : Int) :
    ∀ (f : Nat) (i : Nat) (l : List (Nat × SessNode)),
      chainPairs h f (some i) = some l →
      zts_byfd_loop h fd f (some i) =
        .ok ((l.find? (fun p => p.2.fd == fd)).map (fun p => p.1)) := by
  intro f
  induction f with
  | zero => intro i l hc; simp [chainPairs] at hc
  | succ f ih =>
      intro i l hc
      simp only [chainPairs] at hc
      cases hlk : h.lookupId i with
      | none => rw [hlk] at hc; cases hc
      | some nd =>
          simp only [hlk] at hc
          cases hc' : chainPairs h f nd.next with
          | none => rw [hc'] at hc; cases hc
          | some l' =>
              rw [hc'] at hc
              simp only [Option.map] at hc
              have hl : l = (i, nd) :: l' := (Option.some.inj hc).symm
              subst hl
              rw [zts_byfd_loop]
              simp only [deref, hlk, bind, Except.bind]
              by_cases hfd : nd.fd = fd
              · rw [if_pos hfd]
                rw [List.find?_cons_of_pos _ (by simp [hfd])]
                rfl
              · rw [if_neg hfd]
                rw [List.find?_cons_of_neg _ (by simp [hfd])]
                cases hnx : nd.next with
                | none =>
                    rw [hnx] at hc'
                    have hl' : l' = [] := by
                      simpa [chainPairs] using hc'.symm
                    subst hl'
                    rfl
                | some n =>
                    rw [hnx] at hc'
                    exact ih n l' hc'

/-- C10.  On a non-empty registry (head points at a session) whose forward
traversal terminates with node list `l`, `zts_byfd` returns the id of the
first session in registry order whose descriptor equals `fd` — so the
first-allocated match when descriptors are duplicated — or none when no
session matches.  The empty registry is outside the hypothesis, matching
the claim's precondition (the source's do-while would dereference NULL). -/
theorem c10_byfd_first_match :
    ∀ (st : TcpState) (fd : Int) (hid : Nat) (l : List (Nat × SessNode)),
      st.head = some hid → chain st = some l →
      zts_byfd fd st = .ok ((l.find? (fun p => p.2.fd == fd)).map (fun p => p.1)) := by
  intro st fd hid l hh hc
  rw [zts_byfd, hh]
  rw [chain, hh] at hc
  exact zts_byfd_loop_finds st.heap fd (st.heap.length + 1) hid l hc

/-- A registry holding two sessions that (incorrectly) share descriptor 7. -/
def stDup : TcpState :=
  { heap := [(0, { fd := 7, peer := zeroPeer, flags := 0, next := some 1 }),
             (1, { fd := 7, peer := zeroPeer, flags := 0, next := none })],
    head := some 0, tail := some 1, fresh := 2 }

/-- C10 witness: with duplicated descriptor 7, the scan returns the
first-allocated session 0; an absent descriptor yields none. -/
theorem c10_byfd_first_match_witness :
    zts_byfd 7 stDup = .ok (some 0) ∧ zts_byfd 9 stDup = .ok none := by
  exact ⟨c10_byfd_first_match stDup 7 0 _ rfl rfl,
         c10_byfd_first_match stDup 9 0 _ rfl rfl⟩

/-! ## C9: the resolve-and-connect loop -/

/-- The `EINTR` errno value (interrupted system call). -/
def EINTR : Nat := 4

/-- OS behaviour of one candidate address in the connect loop: the first
`eintr` `connect` attempts are interrupted (fail with errno `EINTR`), then
the next attempt either succeeds (`success = true`, leaving `errno`
untouched) or fails with errno `errnoF`.  Runs whose final attempt is
itself interrupted never leave the source's `do…while` loop, so every
terminating execution has this shape. -/
structure CandBehavior where
  eintr : Nat
  success : Bool
  errnoF : Nat
deriving DecidableEq, Repr

/-- The inner retry loop of `bin_ztcp`:
`do { err = tcp_connect(sess, *addrp, zthost, htons(destport)); }
 while (err && errno == EINTR && !errflag);`
with `errflag` false throughout.  Arguments thread the candidate's
behaviour, the current `errno`, and the state; the returned address list is
ghost instrumentation recording the argument of each `tcp_connect` call in
order. -/
def inner_retry (sess : Nat) (zhost : HostEnt) (nport : Nat) (addrp : List Nat) :
    Nat → Bool → Nat → Nat → TcpState →
    Except CErr (Int × Nat × List (List Nat) × TcpState)
  | 0, succ, ef, errno, st => do
      let (e, st') ← tcp_connect st (if succ then 0 else -1) sess addrp zhost nport
      .ok (e, if succ then errno else ef, [addrp], st')
  | k + 1, succ, ef, _errno, st => do
      let (_, st') ← tcp_connect st (-1) sess addrp zhost nport
      let (e, er, tr, st'') ← inner_retry sess zhost nport addrp k succ ef EINTR st'
      .ok (e, er, addrp :: tr, st'')

/-- The candidate loop of `bin_ztcp`:
`for (addrp = zthost->h_addr_list; err && *addrp; addrp++) { … inner retry … }`
with `err` initialised to 1 by the caller; each list element pairs a
candidate address with its OS behaviour.  (The `h_length != 4` warning in
the body has no state effect and is not modelled.)  Returns the final
`err`, the final `errno`, the ghost trace of attempted addresses, and the
state. -/
def connect_loop (sess : Nat) (zhost : HostEnt) (nport : Nat) :
    List (List Nat × CandBehavior) → Int → Nat → TcpState →
    Except CErr (Int × Nat × List (List Nat) × TcpState)
  | [], err, errno, st => .ok (err, errno, [], st)
  | (addrp, b) :: rest, err, errno, st =>
      if err = 0 then .ok (err, errno, [], st)
      else do
        let (err', errno', tr, st') ←
          inner_retry sess zhost nport addrp b.eintr b.success b.errnoF errno st
        let (err'', errno'', tr', st'') ← connect_loop sess zhost nport rest err' errno' st'
        .ok (err'', errno'', tr ++ tr', st'')

theorem Heap.updateId_updateId (h : Heap) (i : Nat) (a b : SessNode) :
    (h.updateId i a).updateId i b = h.updateId i b := by
  induction h with
  | nil => rfl
  | cons p t ih =>
      obtain ⟨k, pnd⟩ := p
      by_cases hk : k = i <;> simp [Heap.updateId, hk, ih]

/-- The errno left behind by a run of failed candidates: the last
candidate's final errno, or the incoming errno if there are none. -/
def lastErrnoD (errno0 : Nat) : List (List Nat × CandBehavior) → Nat
  | [] => errno0
  | c :: rest => lastErrnoD c.2.errnoF rest

/-- The peer endpoint `tcp_connect` builds for a candidate address. -/
def peerOf (zh : HostEnt) (np : Nat) (ad : List Nat) : PeerAddr :=
  { family := zh.h_addrtype, addr := ad.take zh.h_length, port := np }

theorem inner_retry_spec (sess : Nat) (zh : HostEnt) (np : Nat) (ad : List Nat) :
    ∀ (k : Nat) (succ : Bool) (ef errno : Nat) (st : TcpState) (nd : SessNode),
      st.heap.lookupId sess = some nd →
      inner_retry sess zh np ad k succ ef errno st =
        .ok (if succ then 0 else -1,
             (if succ then (if k = 0 then errno else EINTR) else ef),
             List.replicate (k + 1) ad,
             { st with heap := st.heap.updateId sess { nd with peer := peerOf zh np ad } }) := by
  intro k
  induction k with
  | zero =>
      intro succ ef errno st nd hlk
      rw [inner_retry]
      simp [tcp_connect, deref, hlk, bind, Except.bind, peerOf]
  | succ k ih =>
      intro succ ef errno st nd hlk
      rw [inner_retry]
      simp only [tcp_connect, deref, hlk, bind, Except.bind]
      rw [ih succ ef EINTR _ { nd with peer := peerOf zh np ad }
        (Heap.lookupId_updateId_self _ _ _ _ hlk)]
      simp only [Heap.updateId_updateId]
      simp [List.replicate_succ, peerOf]

/-- With `err = 0` the candidate loop performs no further work. -/
theorem connect_loop_err0 (sess : Nat) (zh : HostEnt) (np : Nat) :
    ∀ (cands : List (List Nat × CandBehavior)) (errno : Nat) (st : TcpState),
      connect_loop sess zh np cands 0 errno st = .ok (0, errno, [], st) := by
  intro cands errno st
  cases cands with
  | nil => rfl
  | cons c rest => obtain ⟨ad, b⟩ := c; simp [connect_loop]

/-- C9.  The connect loop tries the resolved candidates in list order
(stated for any nonzero incoming `err`; `bin_ztcp` enters with `err = 1`).
First conjunct: if the candidates split as `pre ++ (ad, b) :: rest` where
every candidate of `pre` fails and `b` succeeds, the loop returns success
(`err = 0`); the ghost trace shows each candidate of `pre` attempted
`eintr + 1` consecutive times (the interrupted-call retries stay on the
same address) followed by `ad`'s own attempts and nothing from `rest` —
the loop stops at the first success, whose endpoint is what the session's
peer then holds.  Second conjunct: if every candidate of
`init ++ [(adL, bL)]` fails, the loop returns `err = -1` with `errno` the
last candidate's OS error, every candidate was attempted in order, and the
session is still allocated afterwards — the final state differs from the
initial one only in the session's rewritten peer field (same heap domain,
head and tail), as the final conjunct's lookup shows. -/
theorem c9_connect_order_retry_exhaustion :
    (∀ (sess : Nat) (zh : HostEnt) (np : Nat)
        (pre : List (List Nat × CandBehavior)) (ad : List Nat) (b : CandBehavior)
        (rest : List (List Nat × CandBehavior)) (err0 : Int) (errno0 : Nat)
        (st : TcpState) (nd : SessNode),
      err0 ≠ 0 →
      st.heap.lookupId sess = some nd →
      (∀ c ∈ pre, c.2.success = false) →
      b.success = true →
      connect_loop sess zh np (pre ++ (ad, b) :: rest) err0 errno0 st =
        .ok (0,
             (if b.eintr = 0 then lastErrnoD errno0 pre else EINTR),
             (pre.flatMap fun c => List.replicate (c.2.eintr + 1) c.1) ++
               List.replicate (b.eintr + 1) ad,
             { st with heap := st.heap.updateId sess { nd with peer := peerOf zh np ad } })) ∧
    (∀ (sess : Nat) (zh : HostEnt) (np : Nat)
        (init : List (List Nat × CandBehavior)) (adL : List Nat) (bL : CandBehavior)
        (err0 : Int) (errno0 : Nat) (st : TcpState) (nd : SessNode),
      err0 ≠ 0 →
      st.heap.lookupId sess = some nd →
      (∀ c ∈ init, c.2.success = false) →
      bL.success = false →
      connect_loop sess zh np (init ++ [(adL, bL)]) err0 errno0 st =
        .ok (-1, bL.errnoF,
             (init.flatMap fun c => List.replicate (c.2.eintr + 1) c.1) ++
               List.replicate (bL.eintr + 1) adL,
             { st with heap := st.heap.updateId sess { nd with peer := peerOf zh np adL } }) ∧
      (st.heap.updateId sess { nd with peer := peerOf zh np adL }).lookupId sess =
        some { nd with peer := peerOf zh np adL }) := by
  constructor
  · intro sess zh np pre
    induction pre with
    | nil =>
        intro ad b rest err0 errno0 st nd herr hlk hpre hb
        simp only [List.nil_append, connect_loop, bind, Except.bind]
        rw [if_neg herr]
        rw [inner_retry_spec sess zh np ad b.eintr b.success b.errnoF errno0 st nd hlk]
        rw [hb]
        simp only [if_pos rfl, reduceIte]
        rw [connect_loop_err0]
        simp [lastErrnoD]
    | cons c pre ih =>
        intro ad b rest err0 errno0 st nd herr hlk hpre hb
        obtain ⟨ca, cb⟩ := c
        have hcb : cb.success = false := hpre (ca, cb) (by simp)
        have hrec := ih ad b rest (-1) cb.errnoF ({ st with heap := st.heap.updateId sess { nd with peer := peerOf zh np ca } }) ({ nd with peer := peerOf zh np ca }) (by norm_num) (Heap.lookupId_updateId_self _ _ _ _ hlk) (fun c hc => hpre c (List.mem_cons_of_mem _ hc)) hb
        dsimp only at hrec
        simp only [Heap.updateId_updateId] at hrec
        simp only [List.cons_append, List.append_eq, connect_loop, bind, Except.bind]
        rw [if_neg herr]
        rw [inner_retry_spec sess zh np ca cb.eintr cb.success cb.errnoF errno0 st nd hlk]
        rw [hcb]
        simp only [Bool.false_eq_true, if_false, reduceIte]
        rw [hrec]
        simp [lastErrnoD]
  · intro sess zh np init
    induction init with
    | nil =>
        intro adL bL err0 errno0 st nd herr hlk hinit hbL
        refine ⟨?_, Heap.lookupId_updateId_self _ _ _ _ hlk⟩
        simp only [List.nil_append, connect_loop, bind, Except.bind]
        rw [if_neg herr]
        rw [inner_retry_spec sess zh np adL bL.eintr bL.success bL.errnoF errno0 st nd hlk]
        rw [hbL]
        simp only [Bool.false_eq_true, if_false, reduceIte]
        simp
    | cons c init ih =>
        intro adL bL err0 errno0 st nd herr hlk hinit hbL
        obtain ⟨ca, cb⟩ := c
        have hcb : cb.success = false := hinit (ca, cb) (by simp)
        have hrec := ih adL bL (-1) cb.errnoF ({ st with heap := st.heap.updateId sess { nd with peer := peerOf zh np ca } }) ({ nd with peer := peerOf zh np ca }) (by norm_num) (Heap.lookupId_updateId_self _ _ _ _ hlk) (fun c hc => hinit c (List.mem_cons_of_mem _ hc)) hbL
        refine ⟨?_, Heap.lookupId_updateId_self _ _ _ _ hlk⟩
        dsimp only at hrec
        simp only [Heap.updateId_updateId] at hrec
        simp only [List.cons_append, List.append_eq, connect_loop, bind, Except.bind]
        rw [if_neg herr]
        rw [inner_retry_spec sess zh np ca cb.eintr cb.success cb.errnoF errno0 st nd hlk]
        rw [hcb]
        simp only [Bool.false_eq_true, if_false, reduceIte]
        rw [hrec.1]
        simp

/-- C9 witness: two candidates, the first interrupted once and then
refused (errno 110), the second failing outright with errno 111: the loop
reports the last OS error, the trace shows the first candidate attempted
twice then the second once, and the session is still registered with the
last attempted peer. -/
theorem c9_connect_order_retry_exhaustion_witness :
    connect_loop 0 host4 23
        [([10, 0, 0, 1], ⟨1, false, 110⟩), ([10, 0, 0, 2], ⟨0, false, 111⟩)] 1 0 stSock =
      .ok (-1, 111, [[10, 0, 0, 1], [10, 0, 0, 1], [10, 0, 0, 2]],
           { heap := [(0, { fd := 5,
                            peer := { family := AF_INET, addr := [10, 0, 0, 2], port := 23 },
                            flags := 0, next := none })],
             head := some 0, tail := some 0, fresh := 1 }) := by
  exact (c9_connect_order_retry_exhaustion.2 0 host4 23
    [([10, 0, 0, 1], ⟨1, false, 110⟩)] [10, 0, 0, 2] ⟨0, false, 111⟩ 1 0 stSock
    { fd := 5, peer := zeroPeer, flags := 0, next := none }
    (by norm_num) rfl (by decide) rfl).1

/-! ## C8: refusing to close a zftp session without force -/

/-- Modelled from the spec: the `ZTCP_ZFTP` flag bit from `tcp.h` (not part
of the given sources) marking a session as a zftp (privileged-subsystem)
control connection; only its being a fixed nonzero bit matters here. -/
def ZTCP_ZFTP : Nat := 1

/-- The user-visible diagnostics of the close-by-descriptor path, to keep
the refusal distinct from the not-found case. -/
inductive ZtcpMsg where
  | useForceZftp
  | fdNotFound
deriving DecidableEq, Repr

/-- The `ops['c']`-with-argument branch of `bin_ztcp`: look the descriptor
up with `zts_byfd`; if found and the session carries `ZTCP_ZFTP` while `-f`
was not given, warn ("use -f to force closure of a zftp control
connection") and return 1 without touching anything; otherwise
`tcp_close(sess); zts_delete(sess); return 0;`.  If the descriptor is not
found, warn ("fd not found in tcp table") and return 1. -/
def bin_ztcp_close_fd (force : Bool) (targetfd : Int) (st : TcpState) (os : OS) :
    Except CErr (Int × Option ZtcpMsg × TcpState × OS) := do
  let osess ← zts_byfd targetfd st
  match osess with
  | some sid => do
      let (_, nd) ← deref st.heap (some sid)
      if (nd.flags &&& ZTCP_ZFTP ≠ 0) ∧ force = false then
        .ok (1, some .useForceZftp, st, os)
      else do
        let (_, os') ← tcp_close st os sid
        let (_, st') ← zts_delete sid st
        .ok (0, none, st', os')
  | none => .ok (1, some .fdNotFound, st, os)

/-! Chain traversal lemmas used to reason about `zts_delete`. -/

theorem chainPairs_mem_lookup (h : Heap) :
    ∀ (f : Nat) (c : Option Nat) (l : List (Nat × SessNode)),
      chainPairs h f c = some l → ∀ p ∈ l, h.lookupId p.1 = some p.2 := by
  intro f
  induction f with
  | zero =>
      intro c l hc p hp
      cases c with
      | none =>
          simp only [chainPairs, Option.some.injEq] at hc
          subst hc
          simp at hp
      | some i => simp [chainPairs] at hc
  | succ f ih =>
      intro c l hc p hp
      cases c with
      | none =>
          simp only [chainPairs, Option.some.injEq] at hc
          subst hc
          simp at hp
      | some i =>
          simp only [chainPairs] at hc
          cases hlk : h.lookupId i with
          | none => rw [hlk] at hc; cases hc
          | some nd =>
              simp only [hlk] at hc
              cases hr : chainPairs h f nd.next with
              | none => rw [hr] at hc; cases hc
              | some l' =>
                  rw [hr] at hc
                  simp only [Option.map] at hc
                  have hl : l = (i, nd) :: l' := (Option.some.inj hc).symm
                  subst hl
                  rcases List.mem_cons.mp hp with hp | hp
                  · subst hp; exact hlk
                  · exact ih nd.next l' hr p hp

theorem chainPairs_cons_inv (h : Heap) (f : Nat) (i : Nat) (l : List (Nat × SessNode))
    (hc : chainPairs h f (some i) = some l) :
    ∃ f' nd l', f = f' + 1 ∧ h.lookupId i = some nd ∧
      chainPairs h f' nd.next = some l' ∧ l = (i, nd) :: l' := by
  cases f with
  | zero => simp [chainPairs] at hc
  | succ f =>
      simp only [chainPairs] at hc
      cases hlk : h.lookupId i with
      | none => rw [hlk] at hc; cases hc
      | some nd =>
          simp only [hlk] at hc
          cases hr : chainPairs h f nd.next with
          | none => rw [hr] at hc; cases hc
          | some l' =>
              rw [hr] at hc
              simp only [Option.map] at hc
              exact ⟨f, nd, l', rfl, rfl, hr, (Option.some.inj hc).symm⟩

theorem chainPairs_none_inv (h : Heap) (f : Nat) (l : List (Nat × SessNode))
    (hc : chainPairs h f none = some l) : l = [] := by
  simp only [chainPairs, Option.some.injEq] at hc
  exact hc.symm

theorem chainPairs_length (h : Heap) :
    ∀ (f : Nat) (c : Option Nat) (l : List (Nat × SessNode)),
      chainPairs h f c = some l → l.length ≤ f := by
  intro f
  induction f with
  | zero =>
      intro c l hc
      cases c with
      | none => rw [chainPairs_none_inv h _ _ hc]; exact Nat.le_refl 0
      | some i => simp [chainPairs] at hc
  | succ f ih =>
      intro c l hc
      cases c with
      | none => rw [chainPairs_none_inv h _ _ hc]; exact Nat.zero_le _
      | some i =>
          obtain ⟨f', nd, l', hf, hlk, hr, he⟩ := chainPairs_cons_inv h _ _ _ hc
          subst he
          have hf' : f' = f := by omega
          subst hf'
          simpa using Nat.succ_le_succ (ih nd.next l' hr)

theorem chainPairs_mono (h : Heap) :
    ∀ (f : Nat) (c : Option Nat) (l : List (Nat × SessNode)),
      chainPairs h f c = some l → ∀ g, l.length ≤ g → chainPairs h g c = some l := by
  intro f
  induction f with
  | zero =>
      intro c l hc g hg
      cases c with
      | none => rw [chainPairs_none_inv h _ _ hc]; cases g <;> rfl
      | some i => simp [chainPairs] at hc
  | succ f ih =>
      intro c l hc g hg
      cases c with
      | none => rw [chainPairs_none_inv h _ _ hc]; cases g <;> rfl
      | some i =>
          obtain ⟨f', nd, l', hf, hlk, hr, he⟩ := chainPairs_cons_inv h _ _ _ hc
          subst he
          have hf' : f' = f := by omega
          subst hf'
          cases g with
          | zero => simp at hg
          | succ g =>
              have hrec : chainPairs h g nd.next = some l' :=
                ih nd.next l' hr g (by simpa using hg)
              simp [chainPairs, hlk, hrec]

theorem chainPairs_det (h : Heap) :
    ∀ (f : Nat) (c : Option Nat) (l l' : List (Nat × SessNode)) (g : Nat),
      chainPairs h f c = some l → chainPairs h g c = some l' → l = l' := by
  intro f
  induction f with
  | zero =>
      intro c l l' g hc hc'
      cases c with
      | none => rw [chainPairs_none_inv h _ _ hc, chainPairs_none_inv h _ _ hc']
      | some i => simp [chainPairs] at hc
  | succ f ih =>
      intro c l l' g hc hc'
      cases c with
      | none => rw [chainPairs_none_inv h _ _ hc, chainPairs_none_inv h _ _ hc']
      | some i =>
          obtain ⟨f1, nd1, l1, hf1, hlk1, hr1, he1⟩ := chainPairs_cons_inv h _ _ _ hc
          obtain ⟨g1, nd2, l2, hg1, hlk2, hr2, he2⟩ := chainPairs_cons_inv h _ _ _ hc'
          rw [hlk1] at hlk2
          injection hlk2 with hnd
          subst hnd
          subst he1
          subst he2
          have hf1' : f1 = f := by omega
          subst hf1'
          rw [ih nd1.next l1 l2 g1 hr1 hr2]

theorem chainPairs_append_inv (h : Heap) :
    ∀ (xs : List (Nat × SessNode)) (f : Nat) (c : Option Nat) (ys : List (Nat × SessNode)),
      chainPairs h f c = some (xs ++ ys) → ∃ g cy, chainPairs h g cy = some ys := by
  intro xs
  induction xs with
  | nil => intro f c ys hc; exact ⟨f, c, hc⟩
  | cons x xs ih =>
      intro f c ys hc
      cases c with
      | none =>
          have := chainPairs_none_inv h _ _ hc
          simp at this
      | some i =>
          obtain ⟨f', nd, l', hf, hlk, hr, he⟩ := chainPairs_cons_inv h _ _ _ hc
          rw [List.cons_append] at he
          injection he with h1 h2
          rw [← h2] at hr
          exact ih f' nd.next ys hr

theorem lookupId_mem_keys (h : Heap) (i : Nat) (nd : SessNode)
    (hl : h.lookupId i = some nd) : i ∈ h.map Prod.fst := by
  induction h with
  | nil => simp [Heap.lookupId] at hl
  | cons p t ih =>
      obtain ⟨k, pnd⟩ := p
      by_cases hk : k = i
      · subst hk; simp
      · simp only [Heap.lookupId, if_neg hk] at hl
        simp [ih hl]

theorem nodup_length_le {xs ys : List Nat} (hnd : xs.Nodup) (hsub : ∀ x ∈ xs, x ∈ ys) :
    xs.length ≤ ys.length := by
  calc xs.length = xs.toFinset.card := (List.toFinset_card_of_nodup hnd).symm
    _ ≤ ys.toFinset.card := Finset.card_le_card (fun x hx => by
        rw [List.mem_toFinset] at hx ⊢
        exact hsub x hx)
    _ ≤ ys.length := ys.toFinset_card_le

/-- The scan loop of `zts_delete` run from `t`, with `sid` somewhere after
`t` in the chain: it stops at the first node whose link equals `sid` — the
chain predecessor of (the first occurrence of) `sid` — decomposing the
chain around that predecessor. -/
theorem zts_scan_finds (h : Heap) (sid : Nat) :
    ∀ (lrest : List (Nat × SessNode)) (t : Nat) (tnd : SessNode) (f : Nat),
      chainPairs h f (some t) = some ((t, tnd) :: lrest) →
      sid ∈ lrest.map Prod.fst →
      ∀ sfuel, lrest.length + 1 ≤ sfuel →
        ∃ l1 tp tpnd snd l2,
          (t, tnd) :: lrest = l1 ++ (tp, tpnd) :: (sid, snd) :: l2 ∧
          tpnd.next = some sid ∧
          zts_scan h sid sfuel t = .ok tp := by
  intro lrest
  induction lrest with
  | nil =>
      intro t tnd f hc hmem sfuel hs
      simp at hmem
  | cons q lrest ih =>
      intro t tnd f hc hmem sfuel hs
      obtain ⟨n, nnd⟩ := q
      obtain ⟨f', tnd', l', hf, hlkt, hr, he⟩ := chainPairs_cons_inv h _ _ _ hc
      injection he with h1 h2
      rw [Prod.mk.injEq] at h1
      obtain ⟨-, h1b⟩ := h1
      subst h1b
      rw [← h2] at hr
      cases hnx : tnd.next with
      | none =>
          rw [hnx] at hr
          have := chainPairs_none_inv h _ _ hr
          simp at this
      | some n0 =>
          rw [hnx] at hr
          obtain ⟨f'', nnd0, l'', hf'', hlkn, hr'', he''⟩ := chainPairs_cons_inv h _ _ _ hr
          injection he'' with hh1 hh2
          rw [Prod.mk.injEq] at hh1
          obtain ⟨hh1a, hh1b⟩ := hh1
          subst hh1a
          subst hh1b
          rw [← hh2] at hr''
          cases sfuel with
          | zero => omega
          | succ s =>
              by_cases hns : n = sid
              · subst hns
                refine ⟨[], t, tnd, nnd, lrest, by simp, hnx, ?_⟩
                simp [zts_scan, hlkt, hnx]
              · have hmem' : sid ∈ lrest.map Prod.fst := by
                  simp only [List.map_cons, List.mem_cons] at hmem
                  rcases hmem with hmem | hmem
                  · exact absurd hmem.symm hns
                  · exact hmem
                have hcn : chainPairs h (f'' + 1) (some n) = some ((n, nnd) :: lrest) := by
                  simp [chainPairs, hlkn, hr'']
                obtain ⟨l1, tp, tpnd, snd, l2, hdecomp, hlink, hscan⟩ :=
                  ih n nnd (f'' + 1) hcn hmem' s (by
                    simp only [List.length_cons] at hs
                    omega)
                refine ⟨(t, tnd) :: l1, tp, tpnd, snd, l2, ?_, hlink, ?_⟩
                · rw [List.cons_append, ← hdecomp]
                · rw [zts_scan]
                  simp only [hlkt, hnx]
                  rw [if_neg hns]
                  exact hscan

/-- Replacing the node after a prefix: if the old heap's traversal from `c`
passes `l1` and then `tp`, and a new heap agrees on `l1`'s nodes and stores
`tpnd'` at `tp`, the new traversal is `l1`, then `tp`'s new record, then
whatever chain hangs off `tpnd'.next`. -/
theorem chainIs_prefix_replace (h h' : Heap) (tp : Nat) (tpnd tpnd' : SessNode) :
    ∀ (l1 : List (Nat × SessNode)) (c : Option Nat) (f : Nat) (rest : List (Nat × SessNode)),
      chainPairs h f c = some (l1 ++ (tp, tpnd) :: rest) →
      (∀ x ∈ l1, h'.lookupId x.1 = some x.2) →
      h'.lookupId tp = some tpnd' →
      ∀ (lrest' : List (Nat × SessNode)) (g : Nat),
        chainPairs h' g tpnd'.next = some lrest' →
        ∃ g', chainPairs h' g' c = some (l1 ++ (tp, tpnd') :: lrest') := by
  intro l1
  induction l1 with
  | nil =>
      intro c f rest hc hag hlkp lrest' g hg
      cases c with
      | none =>
          have := chainPairs_none_inv h _ _ hc
          simp at this
      | some i =>
          obtain ⟨f', nd, l', hf, hlk, hr, he⟩ := chainPairs_cons_inv h _ _ _ hc
          rw [List.nil_append] at he
          injection he with h1 h2
          rw [Prod.mk.injEq] at h1
          obtain ⟨h1a, -⟩ := h1
          subst h1a
          exact ⟨g + 1, by simp [chainPairs, hlkp, hg]⟩
  | cons x l1 ih =>
      intro c f rest hc hag hlkp lrest' g hg
      cases c with
      | none =>
          have := chainPairs_none_inv h _ _ hc
          simp at this
      | some i =>
          obtain ⟨f', nd, l', hf, hlk, hr, he⟩ := chainPairs_cons_inv h _ _ _ hc
          rw [List.cons_append] at he
          injection he with h1 h2
          subst h1
          rw [← h2] at hr
          obtain ⟨g', hg'⟩ := ih nd.next f' rest hr
            (fun y hy => hag y (List.mem_cons_of_mem _ hy)) hlkp lrest' g hg
          have hagx : h'.lookupId i = some nd := by
            simpa using hag (i, nd) (List.mem_cons_self _ _)
          exact ⟨g' + 1, by simp [chainPairs, hagx, hg']⟩

/-- A chain ending in a dangling link never terminates as a list: if the
new heap agrees on the prefix up to `tp`, whose new record links to the
freed id `m`, traversal from `c` yields `none` at every fuel. -/
theorem chainPairs_stuck (h h' : Heap) (tp m : Nat) (tpnd tpnd' : SessNode)
    (hlkp : h'.lookupId tp = some tpnd') (hnx : tpnd'.next = some m)
    (hm : h'.lookupId m = none) :
    ∀ (l1 : List (Nat × SessNode)) (c : Option Nat) (f : Nat) (rest : List (Nat × SessNode)),
      chainPairs h f c = some (l1 ++ (tp, tpnd) :: rest) →
      (∀ x ∈ l1, h'.lookupId x.1 = some x.2) →
      ∀ g, chainPairs h' g c = none := by
  have hdead : ∀ g, chainPairs h' g (some m) = none := by
    intro g
    cases g with
    | zero => rfl
    | succ g => simp [chainPairs, hm]
  intro l1
  induction l1 with
  | nil =>
      intro c f rest hc hag g
      cases c with
      | none =>
          have := chainPairs_none_inv h _ _ hc
          simp at this
      | some i =>
          obtain ⟨f', nd, l', hf, hlk, hr, he⟩ := chainPairs_cons_inv h _ _ _ hc
          rw [List.nil_append] at he
          injection he with h1 h2
          rw [Prod.mk.injEq] at h1
          obtain ⟨h1a, -⟩ := h1
          subst h1a
          cases g with
          | zero => rfl
          | succ g => simp [chainPairs, hlkp, hnx, hdead g]
  | cons x l1 ih =>
      intro c f rest hc hag g
      cases c with
      | none =>
          have := chainPairs_none_inv h _ _ hc
          simp at this
      | some i =>
          obtain ⟨f', nd, l', hf, hlk, hr, he⟩ := chainPairs_cons_inv h _ _ _ hc
          rw [List.cons_append] at he
          injection he with h1 h2
          subst h1
          rw [← h2] at hr
          have hagx : h'.lookupId i = some nd := by
            simpa using hag (i, nd) (List.mem_cons_self _ _)
          cases g with
          | zero => rfl
          | succ g =>
              have := ih nd.next f' rest hr
                (fun y hy => hag y (List.mem_cons_of_mem _ hy)) g
              simp [chainPairs, hagx, this]

/-- `zts_delete` on a session that is present in a duplicate-free
traversal: it reports success, and the deleted session is never visited by
any subsequent terminating traversal (for a middle target the traversal in
fact no longer terminates at all, because the source frees the target's
successor and leaves it linked). -/
theorem zts_delete_unlinks (st : TcpState) (l : List (Nat × SessNode)) (sid : Nat)
    (hc0 : chain st = some l) (hnd : (l.map Prod.fst).Nodup)
    (hmem : sid ∈ l.map Prod.fst) :
    ∃ st', zts_delete sid st = .ok (0, st') ∧
      ∀ l'', chain st' = some l'' → sid ∉ l''.map Prod.fst := by
  rw [chain] at hc0
  cases hh : st.head with
  | none =>
      rw [hh] at hc0
      have := chainPairs_none_inv _ _ _ hc0
      subst this
      simp at hmem
  | some hid =>
      rw [hh] at hc0
      obtain ⟨f', hnd0, lrest, hf, hlkh, hr, he⟩ := chainPairs_cons_inv _ _ _ _ hc0
      subst he
      by_cases hsid : hid = sid
      · -- deleting the head: the record is freed, so no traversal can visit it
        subst hsid
        have hdel : zts_delete hid st =
            .ok (0, { st with heap := st.heap.freeId hid, head := hnd0.next }) := by
          rw [zts_delete, hh]
          simp [deref, hlkh, bind, Except.bind]
        refine ⟨_, hdel, ?_⟩
        intro l'' hc'' hsidmem
        rw [List.mem_map] at hsidmem
        obtain ⟨p, hp, hp1⟩ := hsidmem
        rw [chain] at hc''
        have hlive := chainPairs_mem_lookup _ _ _ _ hc'' p hp
        rw [hp1] at hlive
        dsimp only at hlive
        rw [Heap.lookupId_freeId_self] at hlive
        cases hlive
      · -- sid sits strictly after the head
        have hmem' : sid ∈ lrest.map Prod.fst := by
          simp only [List.map_cons, List.mem_cons] at hmem
          rcases hmem with hmem | hmem
          · exact absurd hmem.symm hsid
          · exact hmem
        have hsub : ∀ x ∈ ((hid, hnd0) :: lrest).map Prod.fst, x ∈ st.heap.map Prod.fst := by
          intro x hx
          rw [List.mem_map] at hx
          obtain ⟨p, hp, hp1⟩ := hx
          have := chainPairs_mem_lookup _ _ _ _ hc0 p hp
          rw [hp1] at this
          exact lookupId_mem_keys _ _ _ this
        have hlen : lrest.length + 1 ≤ st.heap.length := by
          have := nodup_length_le hnd hsub
          simpa using this
        obtain ⟨l1, tp, tpnd, snd, l2, hdecomp, hlink, hscan⟩ :=
          zts_scan_finds st.heap sid lrest hid hnd0 _ hc0 hmem' st.heap.length hlen
        have hptp : st.heap.lookupId tp = some tpnd := by
          apply chainPairs_mem_lookup _ _ _ _ hc0 (tp, tpnd)
          rw [hdecomp]
          simp
        have hpsid : st.heap.lookupId sid = some snd := by
          apply chainPairs_mem_lookup _ _ _ _ hc0 (sid, snd)
          rw [hdecomp]
          simp
        -- duplicate-freeness along the decomposition
        have hndL : ((l1.map Prod.fst) ++ tp :: sid :: l2.map Prod.fst).Nodup := by
          rw [hdecomp] at hnd
          simpa using hnd
        have hdisj := List.disjoint_of_nodup_append hndL
        have htpL : tp ∉ l1.map Prod.fst := fun hx => hdisj hx (by simp)
        have hsidL : sid ∉ l1.map Prod.fst := fun hx => hdisj hx (by simp)
        have hndR : (tp :: sid :: l2.map Prod.fst).Nodup := hndL.of_append_right
        have htpsid : ¬tp = sid := by
          have := (List.nodup_cons.mp hndR).1
          simp only [List.mem_cons] at this
          intro hq
          exact this (Or.inl hq)
        -- the chain re-expressed around the decomposition
        have hcdec : chainPairs st.heap (st.heap.length + 1) (some hid) =
            some (l1 ++ (tp, tpnd) :: (sid, snd) :: l2) := by
          rw [← hdecomp]
          exact hc0
        cases hsnx : snd.next with
        | none =>
            -- target was the last node: nothing is freed, the target leaks,
            -- but it is unlinked: the new traversal is the prefix plus tp
            have hdel : zts_delete sid st =
                .ok (0, { st with heap :=
                  st.heap.updateId tp { tpnd with next := none } }) := by
              rw [zts_delete]
              simp only [hh]
              rw [if_neg hsid]
              simp only [bind, Except.bind, hscan]
              simp only [deref, hptp, hlink, hpsid, hsnx]
            refine ⟨_, hdel, ?_⟩
            intro l'' hc'' hsidmem
            have hag : ∀ x ∈ l1,
                (st.heap.updateId tp { tpnd with next := none }).lookupId x.1 = some x.2 := by
              intro x hx
              have hxlk := chainPairs_mem_lookup _ _ _ _ hc0 x (by rw [hdecomp]; simp [hx])
              rw [Heap.lookupId_updateId_ne]
              · exact hxlk
              · intro hq
                exact htpL (hq ▸ List.mem_map_of_mem Prod.fst hx)
            have hlkp : (st.heap.updateId tp { tpnd with next := none }).lookupId tp =
                some { tpnd with next := none } :=
              Heap.lookupId_updateId_self _ _ _ _ hptp
            obtain ⟨g', hg'⟩ := chainIs_prefix_replace st.heap _ tp tpnd
              { tpnd with next := none } l1 (some hid) (st.heap.length + 1)
              ((sid, snd) :: l2) hcdec hag hlkp [] 0 rfl
            rw [chain] at hc''
            dsimp only at hc''
            rw [hh] at hc''
            have huniq := chainPairs_det _ _ _ _ _ _ hc'' hg'
            subst huniq
            simp only [List.map_append, List.map_cons, List.map_nil, List.mem_append,
              List.mem_cons, List.not_mem_nil, or_false] at hsidmem
            rcases hsidmem with hsidmem | hsidmem
            · exact hsidL hsidmem
            · exact htpsid hsidmem.symm
        | some m =>
            -- middle target: the successor m is freed while still linked,
            -- so every traversal of the new heap dangles at m
            -- first, identify m as the head of l2
            have hcdec2 : chainPairs st.heap (st.heap.length + 1) (some hid) =
                some ((l1 ++ [(tp, tpnd)]) ++ (sid, snd) :: l2) := by
              rw [List.append_assoc]
              simpa using hcdec
            obtain ⟨g0, cy, hgy⟩ := chainPairs_append_inv st.heap (l1 ++ [(tp, tpnd)]) _ _
              ((sid, snd) :: l2) hcdec2
            cases cy with
            | none =>
                have := chainPairs_none_inv _ _ _ hgy
                simp at this
            | some y =>
                obtain ⟨g1, snd1, l2', hgf, hlks1, hr2, he2⟩ := chainPairs_cons_inv _ _ _ _ hgy
                injection he2 with he2a he2b
                rw [Prod.mk.injEq] at he2a
                obtain ⟨he2y, he2snd⟩ := he2a
                subst he2y
                subst he2snd
                rw [← he2b] at hr2
                rw [hsnx] at hr2
                obtain ⟨g2, mnd, l2'', hg2, hlkm, hr3, he3⟩ := chainPairs_cons_inv _ _ _ _ hr2
                -- he3 : l2 = (m, mnd) :: l2''
                have hmM : m ∈ tp :: sid :: l2.map Prod.fst := by
                  rw [he3]
                  simp
                have hmL : m ∉ l1.map Prod.fst := fun hx => hdisj hx hmM
                have hmtp : ¬m = tp := by
                  have := (List.nodup_cons.mp hndR).1
                  intro hq
                  subst hq
                  apply this
                  rw [he3]
                  simp
                have hmsid : ¬m = sid := by
                  have := (List.nodup_cons.mp (List.nodup_cons.mp hndR).2).1
                  intro hq
                  subst hq
                  apply this
                  rw [he3]
                  simp
                have hdel : zts_delete sid st =
                    .ok (0, { st with heap :=
                      (st.heap.updateId tp { tpnd with next := some m }).freeId m }) := by
                  rw [zts_delete]
                  simp only [hh]
                  rw [if_neg hsid]
                  simp only [bind, Except.bind, hscan]
                  simp only [deref, hptp, hlink, hpsid, hsnx]
                refine ⟨_, hdel, ?_⟩
                intro l'' hc'' hsidmem
                have hag : ∀ x ∈ l1,
                    ((st.heap.updateId tp { tpnd with next := some m }).freeId m).lookupId x.1
                      = some x.2 := by
                  intro x hx
                  have hxlk := chainPairs_mem_lookup _ _ _ _ hc0 x (by rw [hdecomp]; simp [hx])
                  rw [Heap.lookupId_freeId_ne, Heap.lookupId_updateId_ne]
                  · exact hxlk
                  · intro hq
                    exact htpL (hq ▸ List.mem_map_of_mem Prod.fst hx)
                  · intro hq
                    exact hmL (hq ▸ List.mem_map_of_mem Prod.fst hx)
                have hlkp : ((st.heap.updateId tp { tpnd with next := some m }).freeId m).lookupId tp
                    = some { tpnd with next := some m } := by
                  rw [Heap.lookupId_freeId_ne _ (fun hq => hmtp hq.symm)]
                  exact Heap.lookupId_updateId_self _ _ _ _ hptp
                have hmfree : ((st.heap.updateId tp { tpnd with next := some m }).freeId m).lookupId m
                    = none := Heap.lookupId_freeId_self _ _
                have hstuck := chainPairs_stuck st.heap _ tp m tpnd
                  { tpnd with next := some m } hlkp rfl hmfree l1 (some hid)
                  (st.heap.length + 1) ((sid, snd) :: l2) hcdec hag
                rw [chain] at hc''
                dsimp only at hc''
                rw [hh] at hc''
                rw [hstuck] at hc''
                cases hc''

/-- C8.  Close-by-descriptor on a session carrying the zftp
(privileged-subsystem) flag, with the descriptor open and the registry's
traversal well formed.  Without `-f`: the request is refused with the
dedicated diagnostic, exit status 1, and registry and OS state are returned
exactly unchanged — the session stays in the registry with its descriptor
open.  With `-f`: exit status 0, the descriptor is closed (removed from the
OS's open set) and the session is deleted — no terminating traversal of the
resulting registry visits it. -/
theorem c8_zftp_close_refusal_and_force :
    ∀ (st : TcpState) (os : OS) (fd : Int) (sid : Nat) (nd : SessNode)
      (l : List (Nat × SessNode)),
      chain st = some l →
      (l.map Prod.fst).Nodup →
      sid ∈ l.map Prod.fst →
      zts_byfd fd st = .ok (some sid) →
      st.heap.lookupId sid = some nd →
      nd.flags &&& ZTCP_ZFTP ≠ 0 →
      nd.fd ≠ -1 →
      nd.fd ∈ os.openFds →
      bin_ztcp_close_fd false fd st os = .ok (1, some .useForceZftp, st, os) ∧
      ∃ st', bin_ztcp_close_fd true fd st os =
          .ok (0, none, st', { openFds := os.openFds.filter (fun x => x ≠ nd.fd) }) ∧
        (∀ l'', chain st' = some l'' → sid ∉ l''.map Prod.fst) ∧
        nd.fd ∉ (os.openFds.filter (fun x => x ≠ nd.fd)) := by
  intro st os fd sid nd l hc hnd hmem hfind hlk hflag hfd hopen
  constructor
  · rw [bin_ztcp_close_fd]
    simp only [bind, Except.bind, hfind]
    simp only [deref, hlk]
    rw [if_pos ⟨hflag, trivial⟩]
  · obtain ⟨st', hdel, hunreach⟩ := zts_delete_unlinks st l sid hc hnd hmem
    have hclose : tcp_close st os sid =
        .ok (0, { openFds := os.openFds.filter (fun x => x ≠ nd.fd) }) := by
      simp [tcp_close, deref, hlk, hfd, osClose, hopen, bind, Except.bind]
    refine ⟨st', ?_, hunreach, by simp [List.mem_filter]⟩
    rw [bin_ztcp_close_fd]
    simp only [bind, Except.bind, hfind]
    simp only [deref, hlk]
    rw [if_neg (by simp)]
    simp only [bind, Except.bind, hclose, hdel]

/-- A registry holding a single zftp-flagged session on descriptor 6. -/
def stZftp : TcpState :=
  { heap := [(0, { fd := 6, peer := zeroPeer, flags := 1, next := none })],
    head := some 0, tail := some 0, fresh := 1 }

/-- C8 witness: Scenario D concretely.  Without force the request is
refused and everything is unchanged; with force the session is closed
(descriptor 6 leaves the OS open set) and deleted from the registry. -/
theorem c8_zftp_close_refusal_and_force_witness :
    bin_ztcp_close_fd false 6 stZftp { openFds := [6] } =
      .ok (1, some .useForceZftp, stZftp, { openFds := [6] }) ∧
    bin_ztcp_close_fd true 6 stZftp { openFds := [6] } =
      .ok (0, none, { heap := [], head := none, tail := some 0, fresh := 1 },
           { openFds := [] }) := by
  have h := c8_zftp_close_refusal_and_force stZftp { openFds := [6] } 6 0
    { fd := 6, peer := zeroPeer, flags := 1, next := none }
    [(0, { fd := 6, peer := zeroPeer, flags := 1, next := none })]
    rfl (by decide) (by decide) rfl rfl (by decide) (by decide) (by decide)
  exact ⟨h.1, rfl⟩
